import Mathlib

/-!
Verification development for the poly-websockets subscription manager.

The definitions below are a shallow embedding of the repository source:

- the user-market registry (src/src/modules/UserRegistry.ts): groups of
  market ids behind a mutex, with capacity placement, regroup-on-add,
  removal, and the periodic reconnect/cleanup scan;
- the multi-user UserSocket (the variant whose group record carries the
  apiKey and auth of a single user): the open, keepalive-tick and message
  callbacks, modelled as pure functions from the captured socket reference
  and the group record to the next group record plus a trace of effects;
- the apiKey-keyed registry operation addUserSubscription, which is not
  part of the sources and is therefore modelled from the specification.

JavaScript Set values are modelled as insertion-ordered duplicate-free
lists; the uuid generator is modelled as a counter carried in the registry
state; socket handles are opaque numbers; JSON parsing of an inbound frame
is modelled as an oracle input of type Option (List UserEvent).
-/

/-- Connection status of a group, from src/src/types (WebSocketStatus). -/
inductive WebSocketStatus
  | PENDING
  | ALIVE
  | DEAD
  | CLEANUP
deriving DecidableEq, Repr

/-- Auth triple; the key doubles as the user identity. -/
structure Auth where
  key : String
  secret : String
  passphrase : String
deriving DecidableEq, Repr

/-- Worker for the Set model: keep the first occurrence of each element,
skipping elements already seen. -/
def setOfListAcc (seen : List String) : List String → List String
  | [] => []
  | x :: xs =>
    if seen.contains x then setOfListAcc seen xs
    else x :: setOfListAcc (seen ++ [x]) xs

/-- Model of the JavaScript expression new Set(list): first-occurrence
deduplication, keeping insertion order. -/
def setOfList (l : List String) : List String :=
  setOfListAcc [] l

/-- Model of new Set(listA concatenated with listB), as used by addMarkets
for updatedMarketIds. -/
def setUnion (a b : List String) : List String :=
  setOfList (a ++ b)

/-- Worker for the lodash chunk model, structurally recursive on a fuel
argument that starts at the list length (one chunk consumes at least one
element, so the fuel never runs out). -/
def chunkListAux (n : Nat) : Nat → List String → List (List String)
  | _, [] => []
  | 0, _ :: _ => []
  | fuel + 1, x :: xs => ((x :: xs).take n) :: chunkListAux n fuel ((x :: xs).drop n)

/-- Model of the lodash chunk helper: splits a list into pieces of length
at most n; chunk size zero yields the empty list, as in lodash. -/
def chunkList (n : Nat) (l : List String) : List (List String) :=
  if n = 0 then [] else chunkListAux n l.length l

/-- Concatenation of a list of lists (used by the cleanup driver to gather
the per-group id lists in group order). -/
def joinAll {α : Type} : List (List α) → List α
  | [] => []
  | x :: xs => x ++ joinAll xs

/-- Group record stored by the registry in src/src/modules/UserRegistry.ts.
The source names this type UserSocketGroup; the record keeps both the
vestigial assetIds field (always empty in this registry) and the marketIds
set which is the actual membership set. The socket is an opaque handle. -/
structure UserMarketGroup where
  groupId : Nat
  assetIds : List String
  marketIds : List String
  wsClient : Option Nat
  status : WebSocketStatus
deriving DecidableEq, Repr

/-- Registry state: the group list plus the uuid generator modelled as a
counter of fresh ids. -/
structure RegState where
  groups : List UserMarketGroup
  nextId : Nat
deriving DecidableEq, Repr

/-- The empty registry. -/
def emptyReg : RegState := ⟨[], 0⟩

/-- UserRegistry.findGroupWithCapacity: the first non-empty group whose
size plus the new-market count fits under the per-connection maximum;
returns its groupId. Note that the loop does not look at the status. -/
def findGroupWithCapacity (groups : List UserMarketGroup) (newMarketLen maxPerWS : Nat) : Option Nat :=
  (groups.find? (fun g =>
    !(g.marketIds.length == 0) && decide (g.marketIds.length + newMarketLen ≤ maxPerWS))).map
    (fun g => g.groupId)

/-- UserRegistry.getGroupIndicesForAsset: indices of all groups whose
marketIds set contains the asset. -/
def getGroupIndicesForAsset (groups : List UserMarketGroup) (marketId : String) : List Nat :=
  (List.range groups.length).filter (fun i =>
    match groups[i]? with
    | some g => g.marketIds.contains marketId
    | none => false)

/-- Loop of the no-capacity branch of addMarkets: push one fresh PENDING
group per chunk and record the fresh ids for connection. -/
def pushChunks (chunks : List (List String)) (s : RegState) : List Nat × RegState :=
  match chunks with
  | [] => ([], s)
  | c :: cs =>
    let g : UserMarketGroup := ⟨s.nextId, [], setOfList c, none, .PENDING⟩
    let rest := pushChunks cs ⟨s.groups ++ [g], s.nextId + 1⟩
    (s.nextId :: rest.1, rest.2)

/-- UserRegistry.addMarkets: filter out ids already present in any group;
if nothing is new, do nothing; otherwise either push fresh groups per
chunk (no group with capacity) or retire the selected group (status
CLEANUP, assetIds emptied — the source empties assetIds, not marketIds)
and push a fresh PENDING group holding the union. Returns the fresh group
ids to connect. The source re-finds the selected group by its id and
throws when it is absent; that branch is unreachable and modelled as a
no-op. -/
def addMarkets (marketIds : List String) (maxPerWS : Nat) (s : RegState) : List Nat × RegState :=
  let newMarketIds := marketIds.filter (fun id => !(s.groups.any (fun g => g.marketIds.contains id)))
  if newMarketIds.length = 0 then ([], s)
  else
    match findGroupWithCapacity s.groups newMarketIds.length maxPerWS with
    | none => pushChunks (chunkList maxPerWS newMarketIds) s
    | some existingGroupId =>
      match s.groups.find? (fun g => g.groupId == existingGroupId) with
      | none => ([], s)
      | some existingGroup =>
        let updatedMarketIds := setUnion existingGroup.marketIds newMarketIds
        let cleaned := s.groups.map (fun g =>
          if g.groupId == existingGroupId then
            { g with assetIds := ([] : List String), status := WebSocketStatus.CLEANUP }
          else g)
        ([s.nextId],
         ⟨cleaned ++ [⟨s.nextId, [], updatedMarketIds, none, .PENDING⟩], s.nextId + 1⟩)

/-- Inner loop of removeMarkets for one group: delete each requested id
from the marketIds set, recording the ids actually removed. -/
def removeFromGroup (g : UserMarketGroup) (ids : List String) : UserMarketGroup × List String :=
  ids.foldl (fun acc id =>
    if acc.1.marketIds.contains id then
      ({ acc.1 with marketIds := acc.1.marketIds.filter (fun y => !(y == id)) }, acc.2 ++ [id])
    else acc) (g, [])

/-- UserRegistry.removeMarkets: for every group with a non-empty set,
delete each requested id; returns the removed ids and the new state. -/
def removeMarkets (marketIds : List String) (s : RegState) : List String × RegState :=
  let res := s.groups.foldl (fun (acc : List String × List UserMarketGroup) g =>
    if g.marketIds.length = 0 then (acc.1, acc.2 ++ [g])
    else
      let r := removeFromGroup g marketIds
      (acc.1 ++ r.2, acc.2 ++ [r.1])) ([], [])
  (res.1, { s with groups := res.2 })

/-- UserRegistry.disconnectGroup as a state change: close the socket and
detach it from the group. -/
def disconnectGroup (g : UserMarketGroup) : UserMarketGroup :=
  { g with wsClient := none }

/-- Socket handles closed by a disconnectGroup call on this group record
(the optional close in wsClient close). -/
def closeList (g : UserMarketGroup) : List Nat :=
  g.wsClient.toList

/-- Result of scanning one group in getGroupsToReconnectAndCleanup: the
possibly mutated group, its contribution to the reconnect list, to the
removal set and to the list of closed socket handles. -/
structure ScanResult where
  group : UserMarketGroup
  reconnect : List Nat
  toRemove : List Nat
  closed : List Nat
deriving DecidableEq, Repr

/-- Per-group body of the scan loop of getGroupsToReconnectAndCleanup, as
the source writes it: the emptiness check first, then ALIVE skip, then
three sequential status checks (the DEAD branch does not continue, so the
CLEANUP and PENDING checks re-inspect the mutated group). -/
def scanGroup (g : UserMarketGroup) : ScanResult :=
  if g.marketIds.length = 0 then ⟨g, [], [g.groupId], []⟩
  else if g.status = .ALIVE then ⟨g, [], [], []⟩
  else
    let step1 : UserMarketGroup × List Nat × List Nat :=
      if g.status = .DEAD then (disconnectGroup g, [g.groupId], closeList g)
      else (g, [], [])
    let g1 := step1.1
    if g1.status = .CLEANUP then
      ⟨{ g1 with marketIds := [] }, step1.2.1, [g1.groupId], step1.2.2⟩
    else if g1.status = .PENDING then
      ⟨g1, step1.2.1 ++ [g1.groupId], [], step1.2.2⟩
    else
      ⟨g1, step1.2.1, [], step1.2.2⟩

/-- Removal phase of getGroupsToReconnectAndCleanup, part one: the
disconnectGroup call on every marked group, then the splice keeping only
unmarked groups. -/
def removalRemaining (toRemove : List Nat) (groups1 : List UserMarketGroup) : List UserMarketGroup :=
  (groups1.map (fun g =>
    if toRemove.contains g.groupId then disconnectGroup g else g)).filter
    (fun g => !(toRemove.contains g.groupId))

/-- Removal phase of getGroupsToReconnectAndCleanup, part two: the socket
handles closed by the disconnectGroup calls on the marked groups. -/
def removalClosed (toRemove : List Nat) (groups1 : List UserMarketGroup) : List Nat :=
  joinAll ((groups1.filter (fun g => toRemove.contains g.groupId)).map closeList)

/-- Driver of getGroupsToReconnectAndCleanup, parameterised by the
per-group scan body: run the scan over the list, then (when some group is
marked) disconnect every marked group and splice the marked groups out.
Returns the reconnect ids, the remaining groups and the closed handles. -/
def runCleanup (scan : UserMarketGroup → ScanResult) (groups : List UserMarketGroup) :
    List Nat × List UserMarketGroup × List Nat :=
  let results := groups.map scan
  let reconnectIds := joinAll (results.map (fun r => r.reconnect))
  let toRemove := joinAll (results.map (fun r => r.toRemove))
  let closedScan := joinAll (results.map (fun r => r.closed))
  let groups1 := results.map (fun r => r.group)
  if toRemove.length = 0 then (reconnectIds, groups1, closedScan)
  else
    (reconnectIds, removalRemaining toRemove groups1, closedScan ++ removalClosed toRemove groups1)

/-- UserRegistry.getGroupsToReconnectAndCleanup over a registry state. -/
def getGroupsToReconnectAndCleanup (s : RegState) : List Nat × RegState × List Nat :=
  let r := runCleanup scanGroup s.groups
  (r.1, { s with groups := r.2.1 }, r.2.2)

/-- Specification-side per-group rules as claim C3 states them: the state
machine of section 4.3 minus the emptiness check. -/
def specScanMinusEmptiness (g : UserMarketGroup) : ScanResult :=
  if g.status = .ALIVE then ⟨g, [], [], []⟩
  else if g.status = .DEAD then ⟨disconnectGroup g, [g.groupId], [], closeList g⟩
  else if g.status = .CLEANUP then ⟨g, [], [g.groupId], []⟩
  else ⟨g, [g.groupId], [], []⟩

/-- Specification-side per-group rules of section 4.3 with the emptiness
check first: an empty group is marked for removal before any status rule
is consulted. -/
def specScanWithEmptiness (g : UserMarketGroup) : ScanResult :=
  if g.marketIds.length = 0 then ⟨g, [], [g.groupId], []⟩
  else specScanMinusEmptiness g

/-- External registry operations of claim C4: add, remove, and the
reconnect/cleanup tick. -/
inductive RegOp
  | add (ids : List String)
  | remove (ids : List String)
  | tick
deriving DecidableEq, Repr

/-- Apply one registry operation. -/
def applyOp (maxPerWS : Nat) (s : RegState) : RegOp → RegState
  | .add ids => (addMarkets ids maxPerWS s).2
  | .remove ids => (removeMarkets ids s).2
  | .tick => (getGroupsToReconnectAndCleanup s).2.1

/-- Run a sequence of registry operations from the empty registry. -/
def runOps (ops : List RegOp) (maxPerWS : Nat) : RegState :=
  ops.foldl (applyOp maxPerWS) emptyReg

/-- Run a sequence of addMarkets calls from the empty registry. -/
def runAdds (callArgs : List (List String)) (maxPerWS : Nat) : RegState :=
  callArgs.foldl (fun s ids => (addMarkets ids maxPerWS s).2) emptyReg

/-- Invariant carried through addMarkets sequences: every group fits under
the maximum, group ids are below the fresh counter, and group ids are
pairwise distinct. -/
def GoodState (maxPerWS : Nat) (s : RegState) : Prop :=
  (∀ g ∈ s.groups, g.marketIds.length ≤ maxPerWS) ∧
  (∀ g ∈ s.groups, g.groupId < s.nextId) ∧
  (s.groups.map (fun g => g.groupId)).Nodup

/-- Inbound user-channel event: the event-type tag on the wire plus an
opaque payload tag distinguishing events. -/
structure UserEvent where
  event_type : String
  tag : Nat
deriving DecidableEq, Repr

/-- isTradeEvent from src/src/types/PolymarketUserSocket.ts. -/
def isTradeEvent (e : UserEvent) : Bool :=
  e.event_type == "trade"

/-- isOrderEvent from src/src/types/PolymarketUserSocket.ts. -/
def isOrderEvent (e : UserEvent) : Bool :=
  e.event_type == "order"

/-- Group record of the multi-user UserSocket: one authenticated user per
group, the auth carried on the record, and an opaque socket handle. -/
structure UserSocketGroup where
  groupId : String
  apiKey : String
  auth : Auth
  wsClient : Option Nat
  status : WebSocketStatus
deriving DecidableEq, Repr

/-- Observable effects of the UserSocket callbacks: frames sent on the
captured socket, user-handler invocations, and keepalive-timer actions of
the socket object owning the callback. -/
inductive UserEffect
  | sendFrame (markets : List String) (ty : String) (apiKey secret passphrase : String)
  | callOnWSOpen (apiKey : String)
  | callOnTrade (apiKey : String) (events : List UserEvent)
  | callOnOrder (apiKey : String) (events : List UserEvent)
  | callOnError (apiKey : String) (message : String)
  | startPing
  | clearOwnPing
  | sendPing
deriving DecidableEq, Repr

/-- Whether an effect invokes a user-supplied handler. -/
def isHandlerCall : UserEffect → Bool
  | .callOnWSOpen _ => true
  | .callOnTrade _ _ => true
  | .callOnOrder _ _ => true
  | .callOnError _ _ => true
  | _ => false

/-- The frames sent in an effect trace, in order. -/
def sentFrames (effs : List UserEffect) : List UserEffect :=
  effs.filter (fun e =>
    match e with
    | .sendFrame _ _ _ _ _ => true
    | _ => false)

/-- handleOpen of the multi-user UserSocket: bail out when the captured
socket W is no longer the current one or the socket is not open; otherwise
mark ALIVE, send the subscription frame built from the auth of the group
with an empty markets list, invoke onWSOpen with the api key, and start
the keepalive timer. W is the captured socket handle and rsOpen says
whether its ready state is OPEN. -/
def handleOpen (g : UserSocketGroup) (W : Nat) (rsOpen : Bool) : UserSocketGroup × List UserEffect :=
  if some W ≠ g.wsClient then (g, [])
  else if rsOpen = false then (g, [])
  else
    ({ g with status := .ALIVE },
     [.sendFrame [] "user" g.auth.key g.auth.secret g.auth.passphrase,
      .callOnWSOpen g.auth.key,
      .startPing])

/-- Body of the keepalive interval of the multi-user UserSocket: stop the
own timer when the captured socket is stale; stop it and mark DEAD when
the socket is not open; else send a protocol ping. -/
def pingTick (g : UserSocketGroup) (W : Nat) (rsOpen : Bool) : UserSocketGroup × List UserEffect :=
  if some W ≠ g.wsClient then (g, [.clearOwnPing])
  else if rsOpen = false then ({ g with status := .DEAD }, [.clearOwnPing])
  else (g, [.sendPing])

/-- Loop of handleMessage that pushes each decoded event into the trade
batch or the order batch, dropping every other event type. -/
def splitEvents : List UserEvent → List UserEvent × List UserEvent
  | [] => ([], [])
  | e :: rest =>
    let r := splitEvents rest
    if isTradeEvent e then (e :: r.1, r.2)
    else if isOrderEvent e then (r.1, e :: r.2)
    else r

/-- UserSocket.handleTradeEvents: invoke onTrade only on a non-empty
batch. -/
def handleTradeEvents (apiKey : String) (tradeEvents : List UserEvent) : List UserEffect :=
  if tradeEvents.length = 0 then [] else [.callOnTrade apiKey tradeEvents]

/-- UserSocket.handleOrderEvents: invoke onOrder only on a non-empty
batch. -/
def handleOrderEvents (apiKey : String) (orderEvents : List UserEvent) : List UserEffect :=
  if orderEvents.length = 0 then [] else [.callOnOrder apiKey orderEvents]

/-- handleMessage of the multi-user UserSocket: swallow the literal PONG
text frame; report a parse failure through onError carrying the raw
payload and stop; otherwise split the decoded events and dispatch the two
batches. The captured socket handle W is in scope but the source body
never consults it, so the result does not depend on it. JSON.parse is
modelled by the oracle argument parsed. -/
def handleMessage (W : Nat) (g : UserSocketGroup) (m : String) (parsed : Option (List UserEvent)) :
    UserSocketGroup × List UserEffect :=
  if m == "PONG" then (g, [])
  else
    match parsed with
    | none => (g, [.callOnError g.auth.key ("Not JSON: " ++ m)])
    | some events =>
      let split := splitEvents events
      (g, handleTradeEvents g.auth.key split.1 ++ handleOrderEvents g.auth.key split.2)

/-- State of the apiKey-keyed user registry: one group per connected user
plus the fresh-id counter. -/
structure UState where
  groups : List UserSocketGroup
  nextId : Nat
deriving DecidableEq, Repr

/-- Invariant of the apiKey-keyed registry: at most one group per api
key. -/
def UKeyUnique (s : UState) : Prop :=
  ∀ k, (s.groups.filter (fun g => g.apiKey == k)).length ≤ 1

/-- Whether some group of the apiKey-keyed registry has the given key. -/
def hasKey (s : UState) (k : String) : Bool :=
  s.groups.any (fun g => g.apiKey == k)

/-- Modelled from the spec: the apiKey-keyed user registry operation
addUserSubscription is not among the given sources (only its caller, the
multi-user UserSocket, and the package README are); section 4.4 codifies
it as returning a fresh group id if and only if no group currently has
apiKey equal to the key of the auth triple, and being a no-op otherwise. -/
def addUserSubscription (auth : Auth) (s : UState) : Option Nat × UState :=
  if hasKey s auth.key then (none, s)
  else
    (some s.nextId,
     ⟨s.groups ++ [⟨toString s.nextId, auth.key, auth, none, .PENDING⟩], s.nextId + 1⟩)

/-- Run a sequence of addUserSubscription calls from the empty registry. -/
def runUserAdds (auths : List Auth) : UState :=
  auths.foldl (fun s a => (addUserSubscription a s).2) ⟨[], 0⟩

/-! Helper lemmas about the list and set helpers. -/

theorem mem_joinAll {α : Type} (a : α) (l : List (List α)) :
    a ∈ joinAll l ↔ ∃ x ∈ l, a ∈ x := by
  induction l with
  | nil => simp [joinAll]
  | cons x xs ih => simp [joinAll, List.mem_append, ih]

theorem joinAll_eq_nil {α : Type} (l : List (List α)) :
    joinAll l = [] ↔ ∀ x ∈ l, x = [] := by
  induction l with
  | nil => simp [joinAll]
  | cons x xs ih => simp [joinAll, ih]

theorem setOfListAcc_length_le (l : List String) :
    ∀ seen, (setOfListAcc seen l).length ≤ l.length := by
  induction l with
  | nil => intro seen; simp [setOfListAcc]
  | cons x xs ih =>
    intro seen
    by_cases h : seen.contains x
    · simp only [setOfListAcc, h, if_true, List.length_cons]
      exact le_trans (ih seen) (Nat.le_succ _)
    · simp only [setOfListAcc, h, if_false, List.length_cons, Bool.false_eq_true]
      exact Nat.succ_le_succ (ih (seen ++ [x]))

theorem setOfList_length_le (l : List String) : (setOfList l).length ≤ l.length :=
  setOfListAcc_length_le l []

theorem setUnion_length_le (a b : List String) :
    (setUnion a b).length ≤ a.length + b.length := by
  have h := setOfList_length_le (a ++ b)
  simpa [setUnion, List.length_append] using h

theorem chunkListAux_length_le (n : Nat) :
    ∀ (fuel : Nat) (l : List String), ∀ c ∈ chunkListAux n fuel l, c.length ≤ n := by
  intro fuel
  induction fuel with
  | zero =>
    intro l c hc
    cases l <;> simp [chunkListAux] at hc
  | succ fuel ih =>
    intro l c hc
    cases l with
    | nil => simp [chunkListAux] at hc
    | cons x xs =>
      simp only [chunkListAux] at hc
      rcases List.mem_cons.mp hc with hc | hc
      · subst hc
        rw [List.length_take]
        exact min_le_left _ _
      · exact ih _ c hc

theorem chunkList_length_le (n : Nat) (l : List String) :
    ∀ c ∈ chunkList n l, c.length ≤ n := by
  intro c hc
  by_cases h : n = 0
  · simp [chunkList, h] at hc
  · exact chunkListAux_length_le n l.length l c (by simpa [chunkList, h] using hc)

theorem splitEvents_eq_filter (l : List UserEvent) :
    splitEvents l = (l.filter isTradeEvent, l.filter isOrderEvent) := by
  induction l with
  | nil => rfl
  | cons e rest ih =>
    by_cases h1 : e.event_type = "trade"
    · have ht : isTradeEvent e = true := by simp [isTradeEvent, h1]
      have ho : isOrderEvent e = false := by simp [isOrderEvent, h1]
      simp [splitEvents, ih, ht, ho, List.filter_cons]
    · by_cases h2 : e.event_type = "order"
      · have ht : isTradeEvent e = false := by simp [isTradeEvent, h2]
        have ho : isOrderEvent e = true := by simp [isOrderEvent, h2]
        simp [splitEvents, ih, ht, ho, List.filter_cons]
      · have ht : isTradeEvent e = false := by simp [isTradeEvent, h1]
        have ho : isOrderEvent e = false := by simp [isOrderEvent, h2]
        simp [splitEvents, ih, ht, ho, List.filter_cons]

theorem handleMessage_some_eq (W : Nat) (g : UserSocketGroup) (m : String)
    (events : List UserEvent) (hm : (m == "PONG") = false) :
    handleMessage W g m (some events) =
      (g, (if events.filter isTradeEvent = [] then []
           else [.callOnTrade g.auth.key (events.filter isTradeEvent)]) ++
          (if events.filter isOrderEvent = [] then []
           else [.callOnOrder g.auth.key (events.filter isOrderEvent)])) := by
  simp [handleMessage, hm, splitEvents_eq_filter, handleTradeEvents, handleOrderEvents,
    List.length_eq_zero]

/-! Claims about the multi-user UserSocket callbacks. -/

/-- C5: for every user group whose socket reaches the open state (the
captured socket is still the current one and its ready state is OPEN), the
first text frame sent on the socket — handleOpen performs the first send
of the socket lifecycle, since connect and handler attachment send
nothing — is the subscription object with an empty markets list, type
user, and the key, secret and passphrase of the auth of the group
verbatim; the group is marked ALIVE, onWSOpen is invoked with the api key
and the keepalive timer is started. -/
theorem handleOpen_first_frame (g : UserSocketGroup) (W : Nat)
    (hW : g.wsClient = some W) :
    handleOpen g W true =
      ({ g with status := .ALIVE },
       [.sendFrame [] "user" g.auth.key g.auth.secret g.auth.passphrase,
        .callOnWSOpen g.auth.key, .startPing]) ∧
    (sentFrames (handleOpen g W true).2).head? =
      some (.sendFrame [] "user" g.auth.key g.auth.secret g.auth.passphrase) := by
  have hne : ¬ (some W ≠ g.wsClient) := by simp [hW]
  constructor
  · simp [handleOpen, hne]
  · simp [handleOpen, hne, sentFrames]

theorem handleOpen_first_frame_witness :
    handleOpen ⟨"g1", "k", ⟨"k", "s", "p"⟩, some 2, .PENDING⟩ 2 true =
      (⟨"g1", "k", ⟨"k", "s", "p"⟩, some 2, .ALIVE⟩,
       [.sendFrame [] "user" "k" "s" "p", .callOnWSOpen "k", .startPing]) :=
  (handleOpen_first_frame ⟨"g1", "k", ⟨"k", "s", "p"⟩, some 2, .PENDING⟩ 2 rfl).1

/-- C6 counterexample: the message callback performs no staleness check.
With a captured socket handle 1 different from the current socket handle 2
of the group, an inbound frame decoding to one trade event still invokes
the onTrade user handler, refuting the claim that every socket callback
exits silently on a stale captured transport without invoking a user
handler. -/
theorem stale_message_still_dispatches_cex :
    (some 1 ≠ (⟨"g1", "k", ⟨"k", "s", "p"⟩, some 2, .ALIVE⟩ : UserSocketGroup).wsClient) ∧
    (handleMessage 1 ⟨"g1", "k", ⟨"k", "s", "p"⟩, some 2, .ALIVE⟩ "m"
        (some [⟨"trade", 0⟩])).2 = [.callOnTrade "k" [⟨"trade", 0⟩]] := by
  constructor
  · decide
  · rfl

/-- C6 (amended): for the open and keepalive-tick callbacks, a stale
captured socket handle means the callback returns leaving the group record
(status and current transport) unchanged, performs no timer action on the
current transport — the tick only clears the own timer of the stale
socket object — and invokes no user handler; the message callback does not
consult the captured handle at all, so it behaves identically for every
captured handle. -/
theorem stale_open_and_tick_guard (g : UserSocketGroup) (W : Nat) (rsOpen : Bool)
    (h : some W ≠ g.wsClient) :
    handleOpen g W rsOpen = (g, []) ∧
    pingTick g W rsOpen = (g, [.clearOwnPing]) ∧
    (∀ eff ∈ (handleOpen g W rsOpen).2 ++ (pingTick g W rsOpen).2,
      isHandlerCall eff = false ∧ eff ≠ .startPing ∧ eff ≠ .sendPing) ∧
    (∀ w2 m parsed, handleMessage W g m parsed = handleMessage w2 g m parsed) := by
  refine ⟨by simp [handleOpen, h], by simp [pingTick, h], ?_, fun w2 m parsed => rfl⟩
  intro eff hmem
  simp [handleOpen, pingTick, h] at hmem
  subst hmem
  refine ⟨rfl, by decide, by decide⟩

theorem stale_open_and_tick_guard_witness :
    handleOpen ⟨"g1", "k", ⟨"k", "s", "p"⟩, some 2, .ALIVE⟩ 1 true =
      (⟨"g1", "k", ⟨"k", "s", "p"⟩, some 2, .ALIVE⟩, []) ∧
    pingTick ⟨"g1", "k", ⟨"k", "s", "p"⟩, some 2, .ALIVE⟩ 1 true =
      (⟨"g1", "k", ⟨"k", "s", "p"⟩, some 2, .ALIVE⟩, [.clearOwnPing]) :=
  ⟨(stale_open_and_tick_guard ⟨"g1", "k", ⟨"k", "s", "p"⟩, some 2, .ALIVE⟩ 1 true (by decide)).1,
   (stale_open_and_tick_guard ⟨"g1", "k", ⟨"k", "s", "p"⟩, some 2, .ALIVE⟩ 1 true (by decide)).2.1⟩

/-- C7: an inbound text frame that is literally PONG is swallowed with no
state change and no handler invocation; any other frame that fails to
parse as JSON triggers exactly one onError carrying the raw payload, after
which nothing else happens — no dispatch, no close, and the group record
(status and socket included) is returned unchanged. -/
theorem handleMessage_pong_and_parse_failure (W : Nat) (g : UserSocketGroup) (m : String)
    (parsed : Option (List UserEvent)) (hm : m ≠ "PONG") :
    handleMessage W g "PONG" parsed = (g, []) ∧
    handleMessage W g m none = (g, [.callOnError g.auth.key ("Not JSON: " ++ m)]) := by
  constructor
  · rfl
  · simp [handleMessage, hm]

theorem handleMessage_pong_and_parse_failure_witness :
    handleMessage 0 ⟨"g1", "k", ⟨"k", "s", "p"⟩, some 1, .ALIVE⟩ "PONG" none =
      (⟨"g1", "k", ⟨"k", "s", "p"⟩, some 1, .ALIVE⟩, []) ∧
    handleMessage 0 ⟨"g1", "k", ⟨"k", "s", "p"⟩, some 1, .ALIVE⟩ "oops" none =
      (⟨"g1", "k", ⟨"k", "s", "p"⟩, some 1, .ALIVE⟩, [.callOnError "k" "Not JSON: oops"]) := by
  have h := handleMessage_pong_and_parse_failure 0
    ⟨"g1", "k", ⟨"k", "s", "p"⟩, some 1, .ALIVE⟩ "oops" none (by decide)
  exact ⟨h.1, h.2.trans (by decide)⟩

/-- C9: dispatch of a decoded user-channel frame partitions the event list
by event type into the trade batch and the order batch, both equal to the
order-preserving filters of the list, delivers the trade batch to onTrade
and the order batch to onOrder (each only when non-empty, trades first),
and events of any other event type end up in neither batch, hence reach no
handler. -/
theorem handleMessage_partitions_events (W : Nat) (g : UserSocketGroup) (m : String)
    (events : List UserEvent) (hm : m ≠ "PONG") :
    handleMessage W g m (some events) =
      (g, (if events.filter isTradeEvent = [] then []
           else [.callOnTrade g.auth.key (events.filter isTradeEvent)]) ++
          (if events.filter isOrderEvent = [] then []
           else [.callOnOrder g.auth.key (events.filter isOrderEvent)])) ∧
    (∀ e ∈ events, isTradeEvent e = false → isOrderEvent e = false →
      e ∉ events.filter isTradeEvent ∧ e ∉ events.filter isOrderEvent) := by
  constructor
  · exact handleMessage_some_eq W g m events (by simpa using hm)
  · intro e he ht ho
    constructor <;> simp [List.mem_filter, ht, ho]

theorem handleMessage_partitions_events_witness :
    handleMessage 0 ⟨"g1", "k", ⟨"k", "s", "p"⟩, some 1, .ALIVE⟩ "m"
      (some [⟨"trade", 0⟩, ⟨"book", 1⟩, ⟨"order", 2⟩, ⟨"trade", 3⟩]) =
      (⟨"g1", "k", ⟨"k", "s", "p"⟩, some 1, .ALIVE⟩,
       [.callOnTrade "k" [⟨"trade", 0⟩, ⟨"trade", 3⟩],
        .callOnOrder "k" [⟨"order", 2⟩]]) := by
  have h := handleMessage_partitions_events 0 ⟨"g1", "k", ⟨"k", "s", "p"⟩, some 1, .ALIVE⟩ "m"
    [⟨"trade", 0⟩, ⟨"book", 1⟩, ⟨"order", 2⟩, ⟨"trade", 3⟩] (by decide)
  exact h.1.trans (by decide)

/-- C10: the onTrade and onOrder handlers are never invoked with an empty
batch, and a frame whose decoded events contain no trade event triggers no
onTrade call at all, just as one with no order event triggers no onOrder
call. -/
theorem no_empty_batch_calls (W : Nat) (g : UserSocketGroup) (m : String)
    (parsed : Option (List UserEvent)) :
    (∀ k, UserEffect.callOnTrade k [] ∉ (handleMessage W g m parsed).2 ∧
          UserEffect.callOnOrder k [] ∉ (handleMessage W g m parsed).2) ∧
    (∀ events, parsed = some events → events.filter isTradeEvent = [] →
      ∀ k l, UserEffect.callOnTrade k l ∉ (handleMessage W g m parsed).2) ∧
    (∀ events, parsed = some events → events.filter isOrderEvent = [] →
      ∀ k l, UserEffect.callOnOrder k l ∉ (handleMessage W g m parsed).2) := by
  cases hpm : (m == "PONG") with
  | true =>
    have he : handleMessage W g m parsed = (g, []) := by
      simp [handleMessage, hpm]
    rw [he]
    refine ⟨fun k => by simp, fun events _ _ k l => by simp, fun events _ _ k l => by simp⟩
  | false =>
    cases parsed with
    | none =>
      have he : handleMessage W g m none = (g, [.callOnError g.auth.key ("Not JSON: " ++ m)]) := by
        simp [handleMessage, hpm]
      rw [he]
      refine ⟨fun k => ⟨by simp, by simp⟩, ?_, ?_⟩
      · intro events hev
        cases hev
      · intro events hev
        cases hev
    | some events =>
      have he := handleMessage_some_eq W g m events hpm
      rw [he]
      refine ⟨?_, ?_, ?_⟩
      · intro k
        by_cases ht : events.filter isTradeEvent = [] <;>
          by_cases ho : events.filter isOrderEvent = [] <;>
            simp_all
      · intro ev hev h0 k l
        cases hev
        by_cases ho : events.filter isOrderEvent = [] <;> simp_all
      · intro ev hev h0 k l
        cases hev
        by_cases ht : events.filter isTradeEvent = [] <;> simp_all
  
theorem no_empty_batch_calls_witness :
    ∀ k, UserEffect.callOnTrade k [] ∉
      (handleMessage 0 ⟨"g1", "k", ⟨"k", "s", "p"⟩, some 1, .ALIVE⟩ "m"
        (some [⟨"order", 2⟩])).2 :=
  fun k => ((no_empty_batch_calls 0 ⟨"g1", "k", ⟨"k", "s", "p"⟩, some 1, .ALIVE⟩ "m"
    (some [⟨"order", 2⟩])).1 k).1

/-! Claims about the registry in src/src/modules/UserRegistry.ts. -/

/-- C2 (code evaluated at the failing input): from the empty registry,
addMarkets for ids a and b with maximum 3 followed by addMarkets for id c
reuses the first group G: exactly one new PENDING group holding the union
is created and its id is the only one returned, and G is marked CLEANUP —
but the marketIds set of G is not emptied (the source empties only the
vestigial assetIds field), so the dispatcher lookup getGroupIndicesForAsset
for id a still yields G: it returns both indices 0 and 1, contradicting
the claim that the lookup no longer yields G. -/
theorem addMarkets_keeps_old_group_in_dispatch :
    addMarkets ["c"] 3 (addMarkets ["a", "b"] 3 emptyReg).2 =
      ([1], ⟨[⟨0, [], ["a", "b"], none, .CLEANUP⟩,
              ⟨1, [], ["a", "b", "c"], none, .PENDING⟩], 2⟩) ∧
    getGroupIndicesForAsset (addMarkets ["c"] 3 (addMarkets ["a", "b"] 3 emptyReg).2).2.groups "a" =
      [0, 1] := by
  decide

/-- C4 (code evaluated at the failing input): the sequence add a b, add c,
add d with maximum 3 leaves the retired group with its marketIds intact,
and findGroupWithCapacity ignores the CLEANUP status, so the third add
selects the retired group and re-unions its ids into a second live group:
afterwards two groups of status other than CLEANUP contain id a,
contradicting the uniqueness claim. -/
theorem two_live_groups_share_asset_after_adds :
    (runOps [.add ["a", "b"], .add ["c"], .add ["d"]] 3).groups =
      [⟨0, [], ["a", "b"], none, .CLEANUP⟩,
       ⟨1, [], ["a", "b", "c"], none, .PENDING⟩,
       ⟨2, [], ["a", "b", "d"], none, .PENDING⟩] ∧
    ((runOps [.add ["a", "b"], .add ["c"], .add ["d"]] 3).groups.filter
      (fun g => !(g.status == .CLEANUP) && g.marketIds.contains "a")).length = 2 := by
  decide

/-- C3 counterexample: one run of getGroupsToReconnectAndCleanup does not
apply the section 4.3 rules minus the emptiness check — on a registry with
one ALIVE group whose marketIds set is empty, the code removes the group
and closes its socket, whereas the rules minus the emptiness check would
skip an ALIVE group and leave the registry unchanged. -/
theorem cleanup_not_minus_emptiness_cex :
    runCleanup scanGroup [⟨7, [], [], some 5, .ALIVE⟩] = ([], [], [5]) ∧
    runCleanup specScanMinusEmptiness [⟨7, [], [], some 5, .ALIVE⟩] =
      ([], [⟨7, [], [], some 5, .ALIVE⟩], []) := by
  decide

theorem scanGroup_parts_eq (g : UserMarketGroup) :
    (scanGroup g).reconnect = (specScanWithEmptiness g).reconnect ∧
    (scanGroup g).toRemove = (specScanWithEmptiness g).toRemove ∧
    (scanGroup g).closed = (specScanWithEmptiness g).closed ∧
    (scanGroup g).group.groupId = g.groupId ∧
    (specScanWithEmptiness g).group.groupId = g.groupId ∧
    (scanGroup g).group.wsClient = (specScanWithEmptiness g).group.wsClient := by
  rcases g with ⟨gid, aids, mids, ws, st⟩
  by_cases hm : mids.length = 0 <;> cases st <;>
    simp [scanGroup, specScanWithEmptiness, specScanMinusEmptiness, disconnectGroup,
      closeList, hm]

theorem scanGroup_toRemove_sub (g : UserMarketGroup) :
    ∀ i ∈ (scanGroup g).toRemove, i = g.groupId := by
  rcases g with ⟨gid, aids, mids, ws, st⟩
  by_cases hm : mids.length = 0 <;> cases st <;>
    simp [scanGroup, disconnectGroup, closeList, hm]

theorem scanGroup_full_eq (g : UserMarketGroup)
    (h : (scanGroup g).toRemove = []) :
    scanGroup g = specScanWithEmptiness g := by
  rcases g with ⟨gid, aids, mids, ws, st⟩
  by_cases hm : mids.length = 0 <;> cases st <;>
    simp_all [scanGroup, specScanWithEmptiness, specScanMinusEmptiness, disconnectGroup,
      closeList, hm]

theorem removalRemaining_cons (T : List Nat) (g : UserMarketGroup) (gs : List UserMarketGroup) :
    removalRemaining T (g :: gs) =
      (if g.groupId ∈ T then [] else [g]) ++ removalRemaining T gs := by
  by_cases hc : g.groupId ∈ T <;>
    simp [removalRemaining, List.filter_cons, hc, disconnectGroup]

theorem removalClosed_cons (T : List Nat) (g : UserMarketGroup) (gs : List UserMarketGroup) :
    removalClosed T (g :: gs) =
      (if g.groupId ∈ T then closeList g else []) ++ removalClosed T gs := by
  by_cases hc : g.groupId ∈ T <;>
    simp [removalClosed, List.filter_cons, hc, joinAll]

theorem removal_phase_congr (T : List Nat) (gs : List UserMarketGroup)
    (hsub : ∀ g ∈ gs, ∀ i ∈ (scanGroup g).toRemove, i ∈ T) :
    removalRemaining T ((gs.map scanGroup).map (fun r => r.group)) =
      removalRemaining T ((gs.map specScanWithEmptiness).map (fun r => r.group)) ∧
    removalClosed T ((gs.map scanGroup).map (fun r => r.group)) =
      removalClosed T ((gs.map specScanWithEmptiness).map (fun r => r.group)) := by
  induction gs with
  | nil => exact ⟨rfl, rfl⟩
  | cons g rest ih =>
    have hrest := ih (fun x hx => hsub x (List.mem_cons_of_mem _ hx))
    have hparts := scanGroup_parts_eq g
    by_cases hT : g.groupId ∈ T
    · have hma : (scanGroup g).group.groupId ∈ T := by
        rw [hparts.2.2.2.1]
        exact hT
      have hmb : (specScanWithEmptiness g).group.groupId ∈ T := by
        rw [hparts.2.2.2.2.1]
        exact hT
      have hclose : closeList (scanGroup g).group = closeList (specScanWithEmptiness g).group := by
        simp [closeList, hparts.2.2.2.2.2]
      constructor
      · rw [List.map_cons, List.map_cons, List.map_cons, List.map_cons,
          removalRemaining_cons, removalRemaining_cons, if_pos hma, if_pos hmb, hrest.1]
      · rw [List.map_cons, List.map_cons, List.map_cons, List.map_cons,
          removalClosed_cons, removalClosed_cons, if_pos hma, if_pos hmb, hclose, hrest.2]
    · have hown : (scanGroup g).toRemove = [] := by
        rcases hrem0 : (scanGroup g).toRemove with _ | ⟨i, rest2⟩
        · rfl
        · exfalso
          have hi : i ∈ (scanGroup g).toRemove := by
            rw [hrem0]
            exact List.mem_cons_self _ _
          have hig := scanGroup_toRemove_sub g i hi
          subst hig
          exact hT (hsub g (List.mem_cons_self _ _) _ hi)
      have heq := scanGroup_full_eq g hown
      constructor
      · rw [List.map_cons, List.map_cons, List.map_cons, List.map_cons, heq,
          removalRemaining_cons, removalRemaining_cons, hrest.1]
      · rw [List.map_cons, List.map_cons, List.map_cons, List.map_cons, heq,
          removalClosed_cons, removalClosed_cons, hrest.2]

theorem runCleanup_scan_eq_specWithEmptiness (groups : List UserMarketGroup) :
    runCleanup scanGroup groups = runCleanup specScanWithEmptiness groups := by
  have hrec : (groups.map scanGroup).map (fun r => r.reconnect) =
      (groups.map specScanWithEmptiness).map (fun r => r.reconnect) := by
    simp only [List.map_map]
    exact List.map_eq_map_iff.mpr (fun g _ => by
      simp only [Function.comp_apply]
      rw [(scanGroup_parts_eq g).1])
  have hrem : (groups.map scanGroup).map (fun r => r.toRemove) =
      (groups.map specScanWithEmptiness).map (fun r => r.toRemove) := by
    simp only [List.map_map]
    exact List.map_eq_map_iff.mpr (fun g _ => by
      simp only [Function.comp_apply]
      rw [(scanGroup_parts_eq g).2.1])
  have hcl : (groups.map scanGroup).map (fun r => r.closed) =
      (groups.map specScanWithEmptiness).map (fun r => r.closed) := by
    simp only [List.map_map]
    exact List.map_eq_map_iff.mpr (fun g _ => by
      simp only [Function.comp_apply]
      rw [(scanGroup_parts_eq g).2.2.1])
  have hTj : joinAll ((groups.map specScanWithEmptiness).map (fun r => r.toRemove)) =
      joinAll ((groups.map scanGroup).map (fun r => r.toRemove)) := by
    rw [hrem]
  simp only [runCleanup]
  rw [hrec, hcl, hTj]
  by_cases hT : (joinAll ((groups.map scanGroup).map (fun r => r.toRemove))).length = 0
  · have hnil := List.length_eq_zero.mp hT
    have hall : ∀ g ∈ groups, (scanGroup g).toRemove = [] := by
      intro g hg
      refine (joinAll_eq_nil _).mp hnil _ ?_
      exact List.mem_map.mpr ⟨scanGroup g, List.mem_map.mpr ⟨g, hg, rfl⟩, rfl⟩
    have hgroups : (groups.map scanGroup).map (fun r => r.group) =
        (groups.map specScanWithEmptiness).map (fun r => r.group) := by
      simp only [List.map_map]
      exact List.map_eq_map_iff.mpr (fun g hg => by
        simp only [Function.comp_apply]
        rw [scanGroup_full_eq g (hall g hg)])
    rw [if_pos hT, if_pos hT, hgroups]
  · have hsub : ∀ g ∈ groups, ∀ i ∈ (scanGroup g).toRemove,
        i ∈ joinAll ((groups.map scanGroup).map (fun r => r.toRemove)) := by
      intro g hg i hi
      refine (mem_joinAll _ _).mpr ⟨(scanGroup g).toRemove, ?_, hi⟩
      exact List.mem_map.mpr ⟨scanGroup g, List.mem_map.mpr ⟨g, hg, rfl⟩, rfl⟩
    have hphase := removal_phase_congr
      (joinAll ((groups.map scanGroup).map (fun r => r.toRemove))) groups hsub
    rw [if_neg hT, if_neg hT, hphase.1, hphase.2]

/-- C3 (amended): one run of getGroupsToReconnectAndCleanup applies the
stated per-group state machine INCLUDING the emptiness check — a group
with an empty marketIds set is marked for removal before any status rule
is applied; then ALIVE groups are skipped, DEAD groups have their socket
closed and detached and their id added to the reconnect list, CLEANUP
groups are removed with their socket closed, and PENDING groups are added
to the reconnect list. Formally, one run on any registry state is
observationally equal to the driver applied to the specification-side
per-group rules with the emptiness check. -/
theorem cleanup_follows_rules_with_emptiness (s : RegState) :
    getGroupsToReconnectAndCleanup s =
      ((runCleanup specScanWithEmptiness s.groups).1,
       { s with groups := (runCleanup specScanWithEmptiness s.groups).2.1 },
       (runCleanup specScanWithEmptiness s.groups).2.2) ∧
    runCleanup scanGroup s.groups = runCleanup specScanWithEmptiness s.groups := by
  have h := runCleanup_scan_eq_specWithEmptiness s.groups
  refine ⟨?_, h⟩
  simp only [getGroupsToReconnectAndCleanup, h]

/-! Capacity invariant machinery for the addMarkets sequences. -/

theorem find_by_id_of_nodup (l : List UserMarketGroup) (a : UserMarketGroup)
    (hnd : (l.map (fun g => g.groupId)).Nodup) (ha : a ∈ l) :
    l.find? (fun g => g.groupId == a.groupId) = some a := by
  induction l with
  | nil => cases ha
  | cons b rest ih =>
    have hnd2 : (rest.map (fun g => g.groupId)).Nodup :=
      (List.nodup_cons.mp (by simpa using hnd)).2
    have hbnotin : b.groupId ∉ rest.map (fun g => g.groupId) :=
      (List.nodup_cons.mp (by simpa using hnd)).1
    rcases List.mem_cons.mp ha with rfl | ha2
    · exact List.find?_cons_of_pos _ (by simp)
    · have hne : (b.groupId == a.groupId) = false := by
        simp only [beq_eq_false_iff_ne]
        intro hEq
        exact hbnotin (hEq ▸ List.mem_map.mpr ⟨a, ha2, rfl⟩)
      simp only [List.find?, hne]
      exact ih hnd2 ha2

theorem findGroupWithCapacity_spec (groups : List UserMarketGroup) (n maxPerWS gid : Nat)
    (h : findGroupWithCapacity groups n maxPerWS = some gid) :
    ∃ G ∈ groups, G.groupId = gid ∧ G.marketIds.length ≠ 0 ∧
      G.marketIds.length + n ≤ maxPerWS := by
  unfold findGroupWithCapacity at h
  cases hf : groups.find? (fun g =>
      !(g.marketIds.length == 0) && decide (g.marketIds.length + n ≤ maxPerWS)) with
  | none => rw [hf] at h; cases h
  | some G =>
    rw [hf] at h
    simp at h
    have hmem := List.mem_of_find?_eq_some hf
    have hp := List.find?_some hf
    simp at hp
    exact ⟨G, hmem, h, fun hlen => hp.1 (List.length_eq_zero.mp hlen), hp.2⟩

theorem goodState_empty (maxPerWS : Nat) : GoodState maxPerWS emptyReg := by
  refine ⟨?_, ?_, ?_⟩ <;> simp [GoodState, emptyReg]

theorem pushChunks_good (maxPerWS : Nat) :
    ∀ (chunks : List (List String)) (s : RegState),
      (∀ c ∈ chunks, c.length ≤ maxPerWS) → GoodState maxPerWS s →
      GoodState maxPerWS (pushChunks chunks s).2 := by
  intro chunks
  induction chunks with
  | nil =>
    intro s _ hs
    exact hs
  | cons c cs ih =>
    intro s hc hs
    simp only [pushChunks]
    apply ih
    · intro c2 hc2
      exact hc c2 (List.mem_cons_of_mem _ hc2)
    · obtain ⟨hA, hB, hC⟩ := hs
      refine ⟨?_, ?_, ?_⟩
      · intro g hg
        rcases List.mem_append.mp hg with hg | hg
        · exact hA g hg
        · rcases List.mem_singleton.mp hg with rfl
          exact le_trans (setOfList_length_le c) (hc c (List.mem_cons_self _ _))
      · intro g hg
        rcases List.mem_append.mp hg with hg | hg
        · exact Nat.lt_succ_of_lt (hB g hg)
        · rcases List.mem_singleton.mp hg with rfl
          exact Nat.lt_succ_self _
      · simp only [List.map_append, List.map_cons, List.map_nil]
        refine List.Nodup.append hC (List.nodup_singleton _) ?_
        intro x hx hx2
        rcases List.mem_singleton.mp hx2 with rfl
        obtain ⟨g, hgmem, hgid⟩ := List.mem_map.mp hx
        exact absurd hgid (Nat.ne_of_lt (hB g hgmem))

theorem addMarkets_good (ids : List String) (maxPerWS : Nat) (s : RegState)
    (hs : GoodState maxPerWS s) : GoodState maxPerWS (addMarkets ids maxPerWS s).2 := by
  simp only [addMarkets]
  by_cases h0 :
      (ids.filter (fun id => !(s.groups.any (fun g => g.marketIds.contains id)))).length = 0
  · rw [if_pos h0]
    exact hs
  · rw [if_neg h0]
    cases hfc : findGroupWithCapacity s.groups
        (ids.filter (fun id => !(s.groups.any (fun g => g.marketIds.contains id)))).length
        maxPerWS with
    | none =>
      exact pushChunks_good maxPerWS _ s (chunkList_length_le _ _) hs
    | some gid =>
      obtain ⟨G, hGmem, hGid, hGne, hGcap⟩ := findGroupWithCapacity_spec _ _ _ _ hfc
      have hfind : s.groups.find? (fun g => g.groupId == gid) = some G := by
        have hf := find_by_id_of_nodup s.groups G hs.2.2 hGmem
        rw [hGid] at hf
        exact hf
      dsimp only
      rw [hfind]
      dsimp only
      obtain ⟨hA, hB, hC⟩ := hs
      refine ⟨?_, ?_, ?_⟩
      · intro g hg
        rcases List.mem_append.mp hg with hg | hg
        · obtain ⟨g0, hg0, rfl⟩ := List.mem_map.mp hg
          by_cases hgg : g0.groupId == gid <;> simp only [hgg, if_true, if_false] <;>
            exact hA g0 hg0
        · rcases List.mem_singleton.mp hg with rfl
          exact le_trans (setUnion_length_le G.marketIds _) hGcap
      · intro g hg
        rcases List.mem_append.mp hg with hg | hg
        · obtain ⟨g0, hg0, rfl⟩ := List.mem_map.mp hg
          by_cases hgg : g0.groupId == gid <;> simp only [hgg, if_true, if_false] <;>
            exact Nat.lt_succ_of_lt (hB g0 hg0)
        · rcases List.mem_singleton.mp hg with rfl
          exact Nat.lt_succ_self _
      · simp only [List.map_append, List.map_cons, List.map_nil, List.map_map]
        have hmapid : s.groups.map ((fun g => g.groupId) ∘ (fun g =>
            if g.groupId == gid then
              { g with assetIds := ([] : List String), status := WebSocketStatus.CLEANUP }
            else g)) = s.groups.map (fun g => g.groupId) :=
          List.map_eq_map_iff.mpr (fun g _ => by
            by_cases hgg : g.groupId = gid <;> simp [Function.comp_apply, hgg])
        rw [hmapid]
        refine List.Nodup.append hC (List.nodup_singleton _) ?_
        intro x hx hx2
        rcases List.mem_singleton.mp hx2 with rfl
        obtain ⟨g, hgmem, hgid2⟩ := List.mem_map.mp hx
        exact absurd hgid2 (Nat.ne_of_lt (hB g hgmem))

theorem runAdds_good (callArgs : List (List String)) (maxPerWS : Nat) :
    GoodState maxPerWS (runAdds callArgs maxPerWS) := by
  have hgen : ∀ (l : List (List String)) (s : RegState), GoodState maxPerWS s →
      GoodState maxPerWS (l.foldl (fun s2 ids => (addMarkets ids maxPerWS s2).2) s) := by
    intro l
    induction l with
    | nil =>
      intro s hs
      exact hs
    | cons ids rest ih =>
      intro s hs
      exact ih _ (addMarkets_good ids maxPerWS s hs)
  exact hgen callArgs emptyReg (goodState_empty maxPerWS)

/-- C8: in every registry state reachable from the empty registry by any
sequence of addMarkets calls with a fixed per-connection maximum, every
group whose status is not CLEANUP holds at most maxPerWS market ids. The
proof goes through the stronger invariant that the bound holds for every
group: fresh groups are created from chunks of at most maxPerWS ids, and a
group is reused only when its current size plus the residual size fits
under the maximum. -/
theorem capacity_invariant (callArgs : List (List String)) (maxPerWS : Nat)
    (g : UserMarketGroup) (hg : g ∈ (runAdds callArgs maxPerWS).groups)
    (hst : g.status ≠ .CLEANUP) :
    g.marketIds.length ≤ maxPerWS :=
  (runAdds_good callArgs maxPerWS).1 g hg

theorem capacity_invariant_witness :
    (⟨0, [], ["a"], none, .PENDING⟩ : UserMarketGroup).marketIds.length ≤ 2 :=
  capacity_invariant [["a"]] 2 ⟨0, [], ["a"], none, .PENDING⟩ (by decide) (by decide)

/-! Claims about the apiKey-keyed user registry (modelled from the spec). -/

theorem addUserSubscription_preserves_unique (a : Auth) (s : UState)
    (hs : UKeyUnique s) : UKeyUnique (addUserSubscription a s).2 := by
  cases hk : hasKey s a.key with
  | true =>
    simp only [addUserSubscription, hk, if_true]
    exact hs
  | false =>
    simp only [addUserSubscription, hk, Bool.false_eq_true, if_false]
    intro k
    dsimp only
    rw [List.filter_append]
    by_cases hkk : k = a.key
    · subst hkk
      have hall : ∀ x ∈ s.groups, ¬ x.apiKey = a.key := by simpa [hasKey] using hk
      have hnone : ∀ g ∈ s.groups, ¬ ((fun g2 => g2.apiKey == a.key) g = true) := by
        intro g hg
        simp only [beq_iff_eq]
        exact hall g hg
      rw [List.filter_eq_nil_iff.mpr hnone]
      simp
    · have hnew : ([(⟨toString s.nextId, a.key, a, none, .PENDING⟩ : UserSocketGroup)].filter
          (fun g => g.apiKey == k)) = [] := by
        simp [Ne.symm hkk]
      rw [hnew]
      simpa using hs k

/-- C1: addUserSubscription returns a fresh group id if and only if no
group currently has apiKey equal to the key of the auth triple; when such
a group exists the operation changes no group and returns nothing; when no
such group exists, exactly one new PENDING group carrying the auth is
appended and its fresh id returned; and after any sequence of adds from
the empty registry, at most one group per apiKey exists. -/
theorem addUserSubscription_correct (a : Auth) (s : UState) :
    ((addUserSubscription a s).1.isSome = true ↔ hasKey s a.key = false) ∧
    (hasKey s a.key = true → addUserSubscription a s = (none, s)) ∧
    (hasKey s a.key = false →
      addUserSubscription a s =
        (some s.nextId,
         ⟨s.groups ++ [⟨toString s.nextId, a.key, a, none, .PENDING⟩], s.nextId + 1⟩)) ∧
    (∀ auths k, ((runUserAdds auths).groups.filter (fun g => g.apiKey == k)).length ≤ 1) := by
  refine ⟨?_, ?_, ?_, ?_⟩
  · cases hk : hasKey s a.key <;> simp [addUserSubscription, hk]
  · intro hk
    simp [addUserSubscription, hk]
  · intro hk
    simp [addUserSubscription, hk]
  · intro auths k
    have hgen : ∀ (l : List Auth) (s0 : UState), UKeyUnique s0 →
        UKeyUnique (l.foldl (fun s2 a2 => (addUserSubscription a2 s2).2) s0) := by
      intro l
      induction l with
      | nil =>
        intro s0 hs0
        exact hs0
      | cons a2 rest ih =>
        intro s0 hs0
        exact ih _ (addUserSubscription_preserves_unique a2 s0 hs0)
    exact hgen auths ⟨[], 0⟩ (fun k2 => by simp) k

theorem addUserSubscription_correct_witness :
    addUserSubscription ⟨"k", "s", "p"⟩
        ⟨[⟨"0", "k", ⟨"k", "s", "p"⟩, none, .PENDING⟩], 1⟩ =
      (none, ⟨[⟨"0", "k", ⟨"k", "s", "p"⟩, none, .PENDING⟩], 1⟩) :=
  (addUserSubscription_correct ⟨"k", "s", "p"⟩
    ⟨[⟨"0", "k", ⟨"k", "s", "p"⟩, none, .PENDING⟩], 1⟩).2.1 (by decide)
